import Mathlib

set_option maxHeartbeats 1000000
set_option maxRecDepth 8000

/-!
# Voice-room presence and rendezvous service: shallow embedding

This file embeds the server routes and client logic of the voice-room
repository in Lean 4 and proves properties of the embedded code.

Conventions of the embedding:
* JavaScript numbers holding millisecond timestamps are modelled as `Int`
  (all subtractions and comparisons keep JS semantics on integers).
* The Redis hash for a room is an association list in insertion order;
  the whole Redis keyspace is a function from key strings to hashes.
* JavaScript `Map`s that are only read pointwise are functions into `Option`;
  the rate-limit map, which the code iterates, is an insertion-ordered list.
* `Date.now()` and `uuidv4()` are passed in as explicit arguments
  (`now`, `fresh`) at each call.
* `catch` blocks that only fire on backing-store failures are not modelled;
  the `ZodError` branches (deterministic validation failures) are.
-/

namespace VoiceRoom

/-- Constant `PRESENCE_TIMEOUT` (the TTL of a presence record): 2 minutes, from
`src/app/api/rooms/presence/route.ts` (and the same literal `120000` in the
in-memory variant). -/
def PRESENCE_TIMEOUT : Int := 120000

/-- Constant `RATE_LIMIT_WINDOW = 60 * 1000` from the in-memory variant. -/
def RATE_LIMIT_WINDOW : Int := 60000

/-- Constant `MAX_REQUESTS_PER_WINDOW = 120` from the in-memory variant. -/
def MAX_REQUESTS_PER_WINDOW : Nat := 120

/-- Constant `CACHE_TTL = 5 * 60 * 1000` (room-existence cache) from the in-memory
variant. -/
def CACHE_TTL : Int := 300000

/-- JSON values, the payloads the routes receive (`await request.json()`).
JS objects keep fields in order; `JSON.parse` keeps the last duplicate key. -/
inductive Json where
  | null
  | boolean (b : Bool)
  | number (n : Int)
  | string (s : String)
  | array (elems : List Json)
  | object (fields : List (String × Json))

/-- Field access on a parsed JSON object: the last occurrence of a duplicated
key wins, as in `JSON.parse`. -/
def getField (fields : List (String × Json)) (name : String) : Option Json :=
  fields.reverse.lookup name

/-- The result of `presenceSchema.parse` in
`src/app/api/rooms/presence/route.ts`:
`z.object({roomId: z.string(), userId: z.string().optional(),
peerId: z.string(), timestamp: z.number()})`. -/
structure PresenceReq where
  roomId : String
  userId : Option String
  peerId : String
  timestamp : Int
  deriving DecidableEq

/-- The result of `deletePresenceSchema.parse`:
`z.object({roomId: z.string(), userId: z.string()})`. -/
structure DeleteReq where
  roomId : String
  userId : String
  deriving DecidableEq

/-- Validation `presenceSchema.parse` as a total function: `none` models a thrown
`ZodError`. A missing optional field parses to `none` for `userId`; a field
of the wrong type is an error; unknown keys are stripped. -/
def parsePresence (j : Json) : Option PresenceReq :=
  match j with
  | Json.object fields =>
    match getField fields "roomId", getField fields "peerId",
          getField fields "timestamp" with
    | some (Json.string r), some (Json.string p), some (Json.number t) =>
      match getField fields "userId" with
      | none => some ⟨r, none, p, t⟩
      | some (Json.string u) => some ⟨r, some u, p, t⟩
      | some _ => none
    | _, _, _ => none
  | _ => none

/-- Validation `deletePresenceSchema.parse` as a total function (`none` = `ZodError`). -/
def parseDeleteReq (j : Json) : Option DeleteReq :=
  match j with
  | Json.object fields =>
    match getField fields "roomId", getField fields "userId" with
    | some (Json.string r), some (Json.string u) => some ⟨r, u⟩
    | _, _ => none
  | _ => none

/-- Record type `ParticipantData` from `src/app/api/rooms/presence/route.ts`; also the
shape of each element of the `participants` arrays the GET handlers return. -/
structure ParticipantData where
  userId : String
  peerId : String
  timestamp : Int
  deriving DecidableEq

namespace PresenceRoute

/-- A value stored in the Redis hash of a room: `hset` writes
`JSON.stringify(participantData)`; a stored string either round-trips
through `JSON.parse` to its `ParticipantData` (`ok`) or fails to parse
(`malformed`). -/
inductive StoredVal where
  | ok (d : ParticipantData)
  | malformed
  deriving DecidableEq

/-- Helper `parseParticipantData` from the route: `JSON.parse` in a `try`, `null`
on failure. -/
def parseParticipantData : StoredVal → Option ParticipantData
  | StoredVal.ok d => some d
  | StoredVal.malformed => none

/-- The hash of one room (`room:<id>:participants`): fields in insertion order.
Real Redis guarantees field names are unique; theorems that need this take
it as a `Nodup` hypothesis. -/
abbrev RoomHash := List (String × StoredVal)

/-- The Redis keyspace: key string to hash (a missing key is the empty
hash, matching `await redis.hgetall(k) || {}`). -/
abbrev RedisStore := String → RoomHash

/-- Helper `getRoomKey` from the route. -/
def getRoomKey (roomId : String) : String :=
  "room:" ++ roomId ++ ":participants"

/-- Redis `HSET h field v`: overwrite the field in place if present,
append otherwise. -/
def hset (h : RoomHash) (field : String) (v : StoredVal) : RoomHash :=
  if h.any (fun e => e.1 = field) then
    h.map (fun e => if e.1 = field then (field, v) else e)
  else
    h ++ [(field, v)]

/-- Redis `HDEL h field`: drop the field (a no-op when absent). -/
def hdel (h : RoomHash) (field : String) : RoomHash :=
  h.filter (fun e => e.1 ≠ field)

/-- Point update of the keyspace. -/
def storeSet (store : RedisStore) (k : String) (h : RoomHash) : RedisStore :=
  fun q => if q = k then h else store q

/-- The body of the GET handler after `hgetall`: map each hash entry to a
participant (field name is the `userId`), dropping entries that fail to
parse or whose age is at least `PRESENCE_TIMEOUT`, exactly as the
`.map(...).filter(... !== null)` chain does. -/
def listParticipants (h : RoomHash) (now : Int) : List ParticipantData :=
  h.filterMap (fun e =>
    match parseParticipantData e.2 with
    | none => none
    | some p =>
      if now - p.timestamp ≥ PRESENCE_TIMEOUT then none
      else some ⟨e.1, p.peerId, p.timestamp⟩)

/-- Response of the presence GET handler (roomId present; the
missing-roomId 400 branch and the catch-all 500 are outside the model). -/
structure GetResult where
  status : Nat
  success : Bool
  participants : List ParticipantData
  deriving DecidableEq

/-- Handler `GET /api/rooms/presence?roomId=...`. -/
def GET (store : RedisStore) (roomId : String) (now : Int) : GetResult :=
  ⟨200, true, listParticipants (store (getRoomKey roomId)) now⟩

/-- Response of the presence POST handler. -/
structure PostResult where
  status : Nat
  success : Bool
  userId : Option String
  error : Option String
  deriving DecidableEq

/-- The POST handler body after schema validation: choose the user id
(`validatedData.userId || uuidv4()`, so an absent or empty string falls back
to the fresh uuid), then `hset` the serialized record under that field and
answer `{success: true, userId}`. The `expire` of the whole room key (5-day
retention) does not change the hash contents and is not modelled. -/
def announce (store : RedisStore) (d : PresenceReq) (fresh : String) :
    PostResult × RedisStore :=
  let userId :=
    match d.userId with
    | some u => if u = "" then fresh else u
    | none => fresh
  let data : ParticipantData := ⟨userId, d.peerId, d.timestamp⟩
  (⟨200, true, some userId, none⟩,
   storeSet store (getRoomKey d.roomId)
     (hset (store (getRoomKey d.roomId)) userId (StoredVal.ok data)))

/-- Handler `POST /api/rooms/presence`: parse with `presenceSchema`; a `ZodError`
is answered with status 400 and `"Invalid request data"` before any Redis
call. -/
def POST (store : RedisStore) (j : Json) (fresh : String) :
    PostResult × RedisStore :=
  match parsePresence j with
  | none => (⟨400, false, none, some "Invalid request data"⟩, store)
  | some d => announce store d fresh

/-- Response of the presence DELETE handler. -/
structure DeleteResult where
  status : Nat
  success : Bool
  error : Option String
  deriving DecidableEq

/-- The DELETE handler body after schema validation: `hdel` the per-user
field and answer `{success: true}`. -/
def removeBody (store : RedisStore) (d : DeleteReq) :
    DeleteResult × RedisStore :=
  (⟨200, true, none⟩,
   storeSet store (getRoomKey d.roomId)
     (hdel (store (getRoomKey d.roomId)) d.userId))

/-- Handler `DELETE /api/rooms/presence`: parse with `deletePresenceSchema`; a
`ZodError` is answered with status 400 before any Redis call. -/
def DELETE (store : RedisStore) (j : Json) : DeleteResult × RedisStore :=
  match parseDeleteReq j with
  | none => (⟨400, false, some "Invalid request data"⟩, store)
  | some d => removeBody store d

end PresenceRoute

/-- A row of the `Room` table (prisma `schema.prisma`), restricted to the
fields the routes read: `roomId` (public token), `expiresAt`, `active`. -/
structure Room where
  roomId : String
  expiresAt : Int
  active : Bool
  deriving DecidableEq

/-- Lookup by public room id, as `prisma.room.findUnique` does over the table. -/
def findRoom (db : List Room) (roomId : String) : Option Room :=
  db.find? (fun r => r.roomId = roomId)

namespace RoomsRoute

/-- Response of `GET /api/rooms?roomId=...` (`src/app/api/rooms/route.ts`). -/
inductive GetRoomResult where
  | missingParam
  | notFound
  | expired
  | ok (roomId : String) (expiresAt : Int)
  deriving DecidableEq

/-- Handler `GET /api/rooms`: 400 without a roomId, 404 when absent, 410
(`expired: true`) when `new Date() > room.expiresAt || !room.active`,
otherwise the room data. -/
def GET (db : List Room) (roomId : Option String) (now : Int) :
    GetRoomResult :=
  match roomId with
  | none => GetRoomResult.missingParam
  | some rid =>
    match findRoom db rid with
    | none => GetRoomResult.notFound
    | some room =>
      if now > room.expiresAt ∨ room.active = false then GetRoomResult.expired
      else GetRoomResult.ok room.roomId room.expiresAt

end RoomsRoute

namespace ValidateRoute

/-- The `reason` field of the validation route response. -/
inductive Reason where
  | not_found
  | expired
  | inactive
  deriving DecidableEq

/-- Response of the room validation route (`src/unnamed/part_001`). -/
inductive ValidateResult where
  | missingParam
  | invalid (reason : Reason)
  | valid (roomId : String) (expiresAt : Int)
  deriving DecidableEq

/-- The validation GET route: 400 without a roomId; `not_found` when the
row is absent; `expired` when `new Date() > room.expiresAt`; `inactive`
when `!room.active`; otherwise `{valid: true, roomId, expiresAt}`. -/
def GET (db : List Room) (roomId : Option String) (now : Int) :
    ValidateResult :=
  match roomId with
  | none => ValidateResult.missingParam
  | some rid =>
    match findRoom db rid with
    | none => ValidateResult.invalid Reason.not_found
    | some room =>
      if now > room.expiresAt then ValidateResult.invalid Reason.expired
      else if room.active = false then ValidateResult.invalid Reason.inactive
      else ValidateResult.valid room.roomId room.expiresAt

end ValidateRoute

namespace MemRoute

/-!
The in-memory presence variant, from the route embedded in
`src/app/_services/room-service.ts` (its twin with minor additions is
`src/unnamed/part_000`): a process-global `presenceCache`,
`roomExistenceCache` and `rateLimitMap` in front of the rooms table.
-/

/-- An element of a `presenceCache` entry. -/
structure MemEntry where
  userId : String
  peerId : String
  timestamp : Int
  lastUpdated : Int
  deriving DecidableEq

/-- The process-global server state: JS `Map`s read pointwise are
functions (`Map.get` returning `undefined` is `none`); `rateLimitMap`,
which the code iterates entry by entry, is an insertion-ordered list whose
keys the real `Map` keeps unique. -/
structure ServerState where
  presenceCache : String → Option (List MemEntry)
  roomExistenceCache : String → Option (Bool × Int)
  rateLimitMap : List (String × Int)
  db : List Room

/-- Point update of a map-as-function. -/
def fset {α : Type} (f : String → Option α) (k : String) (v : α) :
    String → Option α :=
  fun q => if q = k then some v else f q

/-- JS `String.prototype.startsWith` (on code points). -/
def jsStartsWith (s pre : String) : Bool :=
  pre.data.isPrefixOf s.data

/-- JS `Map.set`: overwrite in place when the key exists, append
otherwise. -/
def mapSet (m : List (String × Int)) (k : String) (v : Int) :
    List (String × Int) :=
  if m.any (fun e => e.1 = k) then
    m.map (fun e => if e.1 = k then (k, v) else e)
  else
    m ++ [(k, v)]

/-- The first loop of `checkRateLimit`: delete every entry with
`now - timestamp > RATE_LIMIT_WINDOW`. -/
def cleanupRateMap (now : Int) (m : List (String × Int)) :
    List (String × Int) :=
  m.filter (fun e => ¬ (now - e.2 > RATE_LIMIT_WINDOW))

/-- The second loop of `checkRateLimit`: count entries whose key starts
with `key` and whose timestamp is within the window. -/
def countInWindow (key : String) (now : Int) (m : List (String × Int)) :
    Nat :=
  (m.filter (fun e =>
    jsStartsWith e.1 key ∧ now - e.2 ≤ RATE_LIMIT_WINDOW)).length

/-- The per-request map key `` `${key}:${now}` `` (decimal rendering of
the timestamp, as JS template strings produce). -/
def requestKey (key : String) (now : Int) : String :=
  key ++ ":" ++ Int.repr now

/-- The map entry `checkRateLimit` records for a request: the request key
paired with its timestamp. -/
def rateEntry (key : String) (t : Int) : String × Int :=
  (requestKey key t, t)

/-- Function `checkRateLimit(key)`: clean up stale entries, count the
requests of this key in the window, reject at `MAX_REQUESTS_PER_WINDOW`, otherwise
record the request under `requestKey key now`. Returns the verdict and
the updated `rateLimitMap`. -/
def checkRateLimit (key : String) (now : Int) (m : List (String × Int)) :
    Bool × List (String × Int) :=
  let m1 := cleanupRateMap now m
  if MAX_REQUESTS_PER_WINDOW ≤ countInWindow key now m1 then (false, m1)
  else (true, mapSet m1 (requestKey key now) now)

/-- Function `roomExists(roomId)`: serve a fresh cache entry
(`cachedResult.expiresAt > now`), otherwise `findUnique` on the rooms
table — existence only, `expiresAt`/`active` are not read — and cache the
verdict for `CACHE_TTL`. The DB-error branch (returns `false` uncached) is
outside the model. -/
def roomExists (roomId : String) (now : Int) (st : ServerState) :
    Bool × ServerState :=
  match st.roomExistenceCache roomId with
  | some c =>
    if c.2 > now then (c.1, st)
    else
      let ex := (findRoom st.db roomId).isSome
      (ex, { st with
        roomExistenceCache :=
          fset st.roomExistenceCache roomId (ex, now + CACHE_TTL) })
  | none =>
    let ex := (findRoom st.db roomId).isSome
    (ex, { st with
      roomExistenceCache :=
        fset st.roomExistenceCache roomId (ex, now + CACHE_TTL) })

/-- Response shape of the in-memory handlers. -/
structure MemResult where
  status : Nat
  success : Bool
  cached : Bool
  participants : List ParticipantData
  error : Option String
  deriving DecidableEq

/-- Handler `GET` of the in-memory variant: 400 without a roomId; rate limit on
`` `get:${clientIp}:${roomId}` `` (429); when the cached list is empty,
reject absent rooms with 404; then filter the list of the room down to entries
younger than two minutes, write the filtered list back into
`presenceCache`, and answer with the simplified records. -/
def GET (st : ServerState) (roomId : Option String) (clientIp : String)
    (now : Int) : MemResult × ServerState :=
  match roomId with
  | none => (⟨400, false, false, [], some "Room ID is required"⟩, st)
  | some rid =>
    let rl := checkRateLimit ("get:" ++ clientIp ++ ":" ++ rid) now
      st.rateLimitMap
    let st1 := { st with rateLimitMap := rl.2 }
    if rl.1 = false then
      (⟨429, false, false, [], some "Rate limit exceeded"⟩, st1)
    else
      let participants := (st1.presenceCache rid).getD []
      if participants.length = 0 ∧ (roomExists rid now st1).1 = false then
        (⟨404, false, false, [], some "Room not found"⟩,
         (roomExists rid now st1).2)
      else
        let st2 := if participants.length = 0 then (roomExists rid now st1).2
          else st1
        let live := participants.filter
          (fun p => now - p.timestamp < PRESENCE_TIMEOUT)
        (⟨200, true, false, live.map (fun p => ⟨p.userId, p.peerId,
            p.timestamp⟩), none⟩,
         { st2 with presenceCache := fset st2.presenceCache rid live })

/-- Replace the first element satisfying the predicate (the JS code
mutates the object returned by `participants.find`). -/
def updateFirst {α : Type} (p : α → Bool) (f : α → α) : List α → List α
  | [] => []
  | a :: as => if p a then f a :: as else a :: updateFirst p f as

/-- Handler `POST` of the in-memory variant, after `presenceSchema.parse` (here
`userId` is required): rate limit on
`` `post:${clientIp}:${roomId}:${userId}` ``; for a participant already in
the room either refresh the record in place (when its `lastUpdated` is
younger than 30 s, answering `cached: true`) or drop it and re-append; a
participant not yet in the room is gated on `roomExists` (404 when
absent). -/
def POST (st : ServerState) (roomId userId peerId : String)
    (ts : Int) (clientIp : String) (now : Int) : MemResult × ServerState :=
  let rl := checkRateLimit
    ("post:" ++ clientIp ++ ":" ++ roomId ++ ":" ++ userId) now
    st.rateLimitMap
  let st1 := { st with rateLimitMap := rl.2 }
  if rl.1 = false then
    (⟨429, false, false, [], some "Rate limit exceeded"⟩, st1)
  else
    let participants := (st1.presenceCache roomId).getD []
    match participants.find? (fun p => p.userId = userId) with
    | some ex =>
      if now - ex.lastUpdated < 30000 then
        let ps := updateFirst (fun p => p.userId = userId)
          (fun p => { p with timestamp := ts, lastUpdated := now })
          participants
        (⟨200, true, true, [], none⟩,
         { st1 with presenceCache := fset st1.presenceCache roomId ps })
      else
        let ps := participants.filter (fun p => p.userId ≠ userId) ++
          [⟨userId, peerId, ts, now⟩]
        (⟨200, true, false, [], none⟩,
         { st1 with presenceCache := fset st1.presenceCache roomId ps })
    | none =>
      let ex := roomExists roomId now st1
      if ex.1 = false then
        (⟨404, false, false, [], some "Room not found"⟩, ex.2)
      else
        let ps := participants ++ [⟨userId, peerId, ts, now⟩]
        (⟨200, true, false, [], none⟩,
         { ex.2 with presenceCache := fset ex.2.presenceCache roomId ps })

/-- Handler `DELETE` of the in-memory variant, after `deletePresenceSchema.parse`:
filter the user out of the list of the room, write it back, answer
`{success: true}` (no rate limiting on this handler). -/
def DELETE (st : ServerState) (roomId userId : String) :
    MemResult × ServerState :=
  let ps := ((st.presenceCache roomId).getD []).filter
    (fun p => p.userId ≠ userId)
  (⟨200, true, false, [], none⟩,
   { st with presenceCache := fset st.presenceCache roomId ps })

/-- A server state with empty caches over a given rooms table. -/
def emptyServer (db : List Room) : ServerState :=
  ⟨fun _ => none, fun _ => none, [], db⟩

/-- A sequence of `checkRateLimit` calls for one key at the given times,
threading the `rateLimitMap`; returns the verdicts in order and the final
map. -/
def runRateRequests (key : String) :
    List Int → List (String × Int) → List Bool × List (String × Int)
  | [], m => ([], m)
  | t :: ts, m =>
    let c := checkRateLimit key t m
    let r := runRateRequests key ts c.2
    (c.1 :: r.1, r.2)

end MemRoute

/-- Numeric value of a decimal digit character (proof infrastructure for
decimal-rendering facts). -/
def charVal (c : Char) : Nat :=
  c.toNat - 48

/-- Read a digit string back into a number, most significant first (proof
infrastructure: a left inverse of `Nat.repr`). -/
def decodeDigits : Nat → List Char → Nat
  | acc, [] => acc
  | acc, c :: cs => decodeDigits (acc * 10 + charVal c) cs

namespace ClientHook

/-!
`src/hooks/use-peer-voice-chat.ts` (the variant with persisted identity):
the per-room participant id lives in `localStorage` under
`` `voicechat-userid-${roomId}` ``. `disconnect` tears the session down and
removes that key; the effect cleanup that React runs on unmount calls
`disconnect()` (after the quality-monitor cleanup held in `cleanupRef`);
the Leave buttons in `src/components/voice-chat-room.tsx` also call
`disconnect()`. No `unload`/`beforeunload` listener is registered anywhere,
so an incidental page unload runs none of this code and the browser keeps
`localStorage` as is.
-/

/-- The `localStorage` key holding the per-room participant id. -/
def storageKey (roomId : String) : String :=
  "voicechat-userid-" ++ roomId

/-- Browser `localStorage` as an association list. -/
abbrev LocalStorage := List (String × String)

/-- Browser `localStorage.getItem`. -/
def lsGet (ls : LocalStorage) (k : String) : Option String :=
  ls.lookup k

/-- Browser `localStorage.setItem`: overwrite in place or append. -/
def lsSet (ls : LocalStorage) (k v : String) : LocalStorage :=
  if ls.any (fun e => e.1 = k) then
    ls.map (fun e => if e.1 = k then (k, v) else e)
  else
    ls ++ [(k, v)]

/-- Browser `localStorage.removeItem`. -/
def lsRemove (ls : LocalStorage) (k : String) : LocalStorage :=
  ls.filter (fun e => e.1 ≠ k)

/-- The client-side state the hook touches: the browser storage plus the
session state (`peersRef`, `isConnected`, `participants`). Media and timer
handles carry no data relevant to the theorems and are dropped. -/
structure ClientState where
  localStorage : LocalStorage
  isConnected : Bool
  participants : List String
  peers : List String
  deriving DecidableEq

/-- The identity effect: reuse the stored id when present, otherwise
persist a fresh 8-character id (so a page reload rejoins as the same
participant). Returns the id in use. -/
def initUserId (roomId fresh : String) (st : ClientState) :
    String × ClientState :=
  match lsGet st.localStorage (storageKey roomId) with
  | some u => (u, st)
  | none =>
    let ls := lsSet st.localStorage (storageKey roomId) fresh
    (fresh, { st with localStorage := ls })

/-- Hook function `disconnect` (the `cleanup` closure inside it): fire-and-forget DELETE
to the presence API, clear both intervals, close every peer session and
the peer object, stop local media, `localStorage.removeItem` of the
per-room id, and reset the react state. Only the state-visible part is
modelled. -/
def disconnect (roomId : String) (st : ClientState) : ClientState :=
  { st with
    peers := [],
    isConnected := false,
    participants := [],
    localStorage := lsRemove st.localStorage (storageKey roomId) }

/-- The cleanup of the main effect, run by React when the component unmounts:
`cleanupRef.current()` (stops the quality monitor, no stored state) then
`disconnect()`. -/
def unmountCleanup (roomId : String) (st : ClientState) : ClientState :=
  disconnect roomId st

/-- An incidental page unload: the hook registers no `unload` or
`beforeunload` listener, so no hook code runs and the browser preserves
`localStorage`. -/
def pageUnload (st : ClientState) : ClientState :=
  st

end ClientHook

/-! ## Theorems -/

/-- C1: for every room, the presence GET operation (both the Redis route
and the in-memory variant) never returns a participant record whose age
`now - timestamp` is at least `PRESENCE_TIMEOUT` (120000 ms), even when
stale records are still physically present in the store. -/
theorem c1_list_only_live :
    (∀ (store : PresenceRoute.RedisStore) (roomId : String) (now : Int)
      (rec : ParticipantData),
      rec ∈ (PresenceRoute.GET store roomId now).participants →
      now - rec.timestamp < PRESENCE_TIMEOUT) ∧
    (∀ (st : MemRoute.ServerState) (roomId : Option String)
      (ip : String) (now : Int) (rec : ParticipantData),
      rec ∈ (MemRoute.GET st roomId ip now).1.participants →
      now - rec.timestamp < PRESENCE_TIMEOUT) := by
  constructor
  · intro store roomId now rec hmem
    simp only [PresenceRoute.GET, PresenceRoute.listParticipants,
      List.mem_filterMap] at hmem
    obtain ⟨e, _, hfe⟩ := hmem
    rcases hp : PresenceRoute.parseParticipantData e.2 with _ | p
    · rw [hp] at hfe; exact absurd hfe (by simp)
    · rw [hp] at hfe
      dsimp only at hfe
      split at hfe
      · exact absurd hfe (by simp)
      · rename_i hage
        cases hfe
        dsimp only
        omega
  · intro st roomId ip now rec hmem
    rcases roomId with _ | rid
    · simp [MemRoute.GET] at hmem
    · simp only [MemRoute.GET] at hmem
      split at hmem
      · simp at hmem
      · split at hmem
        · simp at hmem
        · simp only [List.mem_map, List.mem_filter] at hmem
          obtain ⟨p, ⟨_, hlive⟩, hpe⟩ := hmem
          have : rec.timestamp = p.timestamp := by
            cases hpe; rfl
          simp only [decide_eq_true_eq] at hlive
          omega

/-- C1 witness: a store holding one fresh record; the GET result contains
it, and the theorem bounds its age. -/
theorem c1_list_only_live_witness :
    (10 : Int) - (5 : Int) < PRESENCE_TIMEOUT := by
  have hmem : (⟨"u1", "p1", 5⟩ : ParticipantData) ∈
      (PresenceRoute.GET
        (PresenceRoute.storeSet (fun _ => []) (PresenceRoute.getRoomKey "r1")
          [("u1", PresenceRoute.StoredVal.ok ⟨"u1", "p1", 5⟩)])
        "r1" 10).participants := by decide
  exact c1_list_only_live.1 _ "r1" 10 ⟨"u1", "p1", 5⟩ hmem

/-- C7: a request body that fails schema validation is answered by the
presence POST and DELETE handlers with a structured 400 client error
(`"Invalid request data"`) and the store untouched — never a 5xx. -/
theorem c7_validation_rejected_with_400 :
    (∀ (store : PresenceRoute.RedisStore) (j : Json) (fresh : String),
      parsePresence j = none →
      PresenceRoute.POST store j fresh =
        (⟨400, false, none, some "Invalid request data"⟩, store)) ∧
    (∀ (store : PresenceRoute.RedisStore) (j : Json),
      parseDeleteReq j = none →
      PresenceRoute.DELETE store j =
        (⟨400, false, some "Invalid request data"⟩, store)) := by
  constructor
  · intro store j fresh h
    simp only [PresenceRoute.POST, h]
  · intro store j h
    simp only [PresenceRoute.DELETE, h]

/-- C7 witness: an empty JSON object fails `presenceSchema` and `null`
fails `deletePresenceSchema`; both are answered with 400 and an unchanged
store. -/
theorem c7_validation_rejected_with_400_witness :
    parsePresence (Json.object []) = none ∧
    PresenceRoute.POST (fun _ => []) (Json.object []) "f" =
      (⟨400, false, none, some "Invalid request data"⟩, fun _ => []) ∧
    parseDeleteReq Json.null = none ∧
    PresenceRoute.DELETE (fun _ => []) Json.null =
      (⟨400, false, some "Invalid request data"⟩, fun _ => []) :=
  ⟨by decide, c7_validation_rejected_with_400.1 _ _ "f" (by decide),
   by decide, c7_validation_rejected_with_400.2 _ _ (by decide)⟩

/-- C8: presence removal is idempotent — for every store, room and
participant, two successive DELETE bodies both answer `{success: true}`
(status 200, no error), the second leaves the store exactly as the first
left it, and removing an absent participant is the same always-successful
operation. -/
theorem c8_remove_idempotent :
    ∀ (store : PresenceRoute.RedisStore) (roomId userId : String),
      (PresenceRoute.removeBody store ⟨roomId, userId⟩).1 =
        ⟨200, true, none⟩ ∧
      (PresenceRoute.removeBody
        (PresenceRoute.removeBody store ⟨roomId, userId⟩).2
        ⟨roomId, userId⟩).1 = ⟨200, true, none⟩ ∧
      (PresenceRoute.removeBody
        (PresenceRoute.removeBody store ⟨roomId, userId⟩).2
        ⟨roomId, userId⟩).2 =
        (PresenceRoute.removeBody store ⟨roomId, userId⟩).2 := by
  intro store roomId userId
  refine ⟨rfl, rfl, ?_⟩
  funext q
  simp only [PresenceRoute.removeBody, PresenceRoute.storeSet]
  by_cases hq : q = PresenceRoute.getRoomKey roomId
  · simp only [hq, if_pos rfl, PresenceRoute.hdel, List.filter_filter]
    simp
  · simp only [if_neg hq]

/-- C6: an announce request whose `userId` field is omitted but otherwise
well-formed succeeds: the server uses the freshly generated id, stores the
record under it, and returns it in the response. -/
theorem c6_server_assigns_userId :
    ∀ (store : PresenceRoute.RedisStore) (j : Json) (d : PresenceReq)
      (fresh : String),
      parsePresence j = some d → d.userId = none →
      (PresenceRoute.POST store j fresh).1.status = 200 ∧
      (PresenceRoute.POST store j fresh).1.success = true ∧
      (PresenceRoute.POST store j fresh).1.userId = some fresh ∧
      (PresenceRoute.POST store j fresh).2 (PresenceRoute.getRoomKey d.roomId)
        = PresenceRoute.hset (store (PresenceRoute.getRoomKey d.roomId)) fresh
            (PresenceRoute.StoredVal.ok ⟨fresh, d.peerId, d.timestamp⟩) := by
  intro store j d fresh hparse huid
  simp only [PresenceRoute.POST, hparse, PresenceRoute.announce, huid,
    PresenceRoute.storeSet]
  simp

/-- C6 witness: a payload with `roomId`, `peerId`, `timestamp` and no
`userId` parses with `userId = none`, and the theorem applies to it. -/
theorem c6_server_assigns_userId_witness :
    parsePresence (Json.object [("roomId", Json.string "r1"),
        ("peerId", Json.string "e1"), ("timestamp", Json.number 5)]) =
      some ⟨"r1", none, "e1", 5⟩ ∧
    (PresenceRoute.POST (fun _ => [])
        (Json.object [("roomId", Json.string "r1"),
          ("peerId", Json.string "e1"), ("timestamp", Json.number 5)])
        "u9").1.userId = some "u9" := by
  refine ⟨by decide, ?_⟩
  exact (c6_server_assigns_userId (fun _ => []) _ ⟨"r1", none, "e1", 5⟩ "u9"
    (by decide) rfl).2.2.1

/-- C4 counterexample: a room whose `expiresAt` equals the current time is
reported `valid`, not `expired` — both route checks use the strict
`now > expiresAt`. -/
theorem c4_counterexample :
    ValidateRoute.GET [⟨"r1", 100, true⟩] (some "r1") 100 =
      ValidateRoute.ValidateResult.valid "r1" 100 ∧
    ValidateRoute.GET [⟨"r1", 100, true⟩] (some "r1") 100 ≠
      ValidateRoute.ValidateResult.invalid ValidateRoute.Reason.expired ∧
    RoomsRoute.GET [⟨"r1", 100, true⟩] (some "r1") 100 =
      RoomsRoute.GetRoomResult.ok "r1" 100 := by
  decide

/-- C4 amended: `expired` is reported exactly when `now > expiresAt`
(strict), so a room with `expiresAt` equal to `now` is not expired — both
the validation route and the rooms GET route treat it as usable when
active; usability is the non-strict `now ≤ expiresAt AND active`. -/
theorem c4_expiry_boundary_amended :
    ∀ (db : List Room) (rid : String) (room : Room) (now : Int),
      findRoom db rid = some room →
      ((ValidateRoute.GET db (some rid) now =
          ValidateRoute.ValidateResult.invalid ValidateRoute.Reason.expired ↔
        room.expiresAt < now) ∧
       (room.expiresAt = now → room.active = true →
        ValidateRoute.GET db (some rid) now =
          ValidateRoute.ValidateResult.valid room.roomId room.expiresAt) ∧
       (room.expiresAt = now → room.active = true →
        RoomsRoute.GET db (some rid) now =
          RoomsRoute.GetRoomResult.ok room.roomId room.expiresAt)) := by
  intro db rid room now hfind
  refine ⟨?_, ?_, ?_⟩
  · simp only [ValidateRoute.GET, hfind]
    split_ifs with h1 h2
    · simpa using h1
    · simp only [ValidateRoute.ValidateResult.invalid.injEq]
      constructor
      · intro h; cases h
      · intro h; exact absurd h (by omega)
    · constructor
      · intro h; cases h
      · intro h; exact absurd h (by omega)
  · intro heq hact
    simp only [ValidateRoute.GET, hfind]
    rw [if_neg (by omega), if_neg (by simp [hact])]
  · intro heq hact
    simp only [RoomsRoute.GET, hfind]
    rw [if_neg (by simp [hact]; omega)]

/-- C4 witness: the amended theorem applied to a single-room table at the
exact expiry instant. -/
theorem c4_expiry_boundary_amended_witness :
    ValidateRoute.GET [⟨"r9", 50, true⟩] (some "r9") 50 =
      ValidateRoute.ValidateResult.valid "r9" 50 :=
  (c4_expiry_boundary_amended [⟨"r9", 50, true⟩] "r9" ⟨"r9", 50, true⟩ 50
    (by decide)).2.1 rfl rfl

/-- Lookup never finds a key that a filter just removed. -/
theorem lookup_filter_self (ls : List (String × String)) (k : String) :
    (ls.filter (fun e => e.1 ≠ k)).lookup k = none := by
  induction ls with
  | nil => rfl
  | cons e t ih =>
    obtain ⟨a, b⟩ := e
    by_cases he : a = k
    · simpa [List.filter_cons, he] using ih
    · simpa [List.filter_cons, he, List.lookup_cons,
        beq_false_of_ne (Ne.symm he)] using ih

/-- Filtering one key out leaves `lookup` of other keys unchanged. -/
theorem lookup_filter_other (ls : List (String × String)) (k q : String)
    (h : q ≠ k) :
    (ls.filter (fun e => e.1 ≠ k)).lookup q = ls.lookup q := by
  induction ls with
  | nil => rfl
  | cons e t ih =>
    obtain ⟨a, b⟩ := e
    simp only [ne_eq, decide_not] at ih
    by_cases he : a = k
    · subst he
      simpa [List.filter_cons, List.lookup_cons, beq_false_of_ne h] using ih
    · by_cases hq : q = a
      · simp [List.filter_cons, he, List.lookup_cons, hq]
      · simpa [List.filter_cons, he, List.lookup_cons,
          beq_false_of_ne hq] using ih

/-- C9 counterexample: on a state holding a persisted id, the unmount
cleanup (which React runs on an incidental unmount) removes the id from
local storage — it is not left in place. -/
theorem c9_counterexample :
    ClientHook.lsGet
      (ClientHook.unmountCleanup "r1"
        ⟨[("voicechat-userid-r1", "u1")], true, [], []⟩).localStorage
      (ClientHook.storageKey "r1") = none ∧
    ClientHook.lsGet
      ([("voicechat-userid-r1", "u1")] : ClientHook.LocalStorage)
      (ClientHook.storageKey "r1") = some "u1" := by
  decide

/-- C9 amended: `disconnect` always clears the persisted per-room
participant id (and only that key), the unmount cleanup performs exactly
the same `disconnect`, and an incidental page unload — for which no
handler is registered — leaves local storage untouched; so the id
survives a page unload but not an explicit leave or a React unmount. -/
theorem c9_storage_cleared_on_disconnect_and_unmount :
    (∀ (st : ClientHook.ClientState) (roomId : String),
      ClientHook.lsGet (ClientHook.disconnect roomId st).localStorage
        (ClientHook.storageKey roomId) = none) ∧
    (∀ (st : ClientHook.ClientState) (roomId : String),
      ClientHook.unmountCleanup roomId st =
        ClientHook.disconnect roomId st) ∧
    (∀ st : ClientHook.ClientState, ClientHook.pageUnload st = st) ∧
    (∀ (st : ClientHook.ClientState) (roomId k : String),
      k ≠ ClientHook.storageKey roomId →
      ClientHook.lsGet (ClientHook.disconnect roomId st).localStorage k =
        ClientHook.lsGet st.localStorage k) := by
  refine ⟨?_, fun _ _ => rfl, fun _ => rfl, ?_⟩
  · intro st roomId
    exact lookup_filter_self st.localStorage (ClientHook.storageKey roomId)
  · intro st roomId k hk
    exact lookup_filter_other st.localStorage (ClientHook.storageKey roomId)
      k hk

/-- C9 amended witness: the frame condition applied to a concrete state
and an unrelated key. -/
theorem c9_storage_cleared_witness :
    ClientHook.lsGet
      (ClientHook.disconnect "r1"
        ⟨[("voicechat-userid-r1", "u1"), ("other", "v")], true, [],
          []⟩).localStorage "other" =
      ClientHook.lsGet
        ([("voicechat-userid-r1", "u1"), ("other", "v")] :
          ClientHook.LocalStorage) "other" :=
  c9_storage_cleared_on_disconnect_and_unmount.2.2.2
    ⟨[("voicechat-userid-r1", "u1"), ("other", "v")], true, [], []⟩
    "r1" "other" (by decide)

/-- Frame property: `roomExists` only writes the existence cache: presence data, the
rate-limit map and the rooms table are untouched. -/
theorem roomExists_preserves (rid : String) (now : Int)
    (st : MemRoute.ServerState) :
    (MemRoute.roomExists rid now st).2.presenceCache = st.presenceCache ∧
    (MemRoute.roomExists rid now st).2.rateLimitMap = st.rateLimitMap ∧
    (MemRoute.roomExists rid now st).2.db = st.db := by
  unfold MemRoute.roomExists
  split
  · split
    · exact ⟨rfl, rfl, rfl⟩
    · exact ⟨rfl, rfl, rfl⟩
  · exact ⟨rfl, rfl, rfl⟩

/-- C10 counterexample: a rate-limited GET call (HTTP 429) does not purge:
the cached list of the room still holds a record 130 s old afterwards, so not
*every* call physically removes expired records. -/
theorem c10_counterexample :
    (MemRoute.GET
      ⟨fun q => if q = "r1" then some [⟨"u1", "p1", 0, 0⟩] else none,
        fun _ => none,
        (List.range 120).map
          (fun i => ("get:ip:r1:" ++ Nat.repr i, (130000 : Int))),
        []⟩
      (some "r1") "ip" 130000).1.status = 429 ∧
    (MemRoute.GET
      ⟨fun q => if q = "r1" then some [⟨"u1", "p1", 0, 0⟩] else none,
        fun _ => none,
        (List.range 120).map
          (fun i => ("get:ip:r1:" ++ Nat.repr i, (130000 : Int))),
        []⟩
      (some "r1") "ip" 130000).2.presenceCache "r1" =
      some [⟨"u1", "p1", 0, 0⟩] ∧
    (130000 : Int) - (0 : Int) ≥ PRESENCE_TIMEOUT := by
  decide

/-- C10 amended: every GET call of the in-memory variant that is not
rate-limited leaves only live records in the cached list of the room (the
filtered list is written back), and when the prior list was nonempty the
cache afterwards is exactly the prior list with all records of age
`≥ PRESENCE_TTL` removed; a rate-limited call leaves the cache
untouched. -/
theorem c10_get_purges_unless_rate_limited :
    ∀ (st : MemRoute.ServerState) (rid ip : String) (now : Int),
      (MemRoute.checkRateLimit ("get:" ++ ip ++ ":" ++ rid) now
        st.rateLimitMap).1 = true →
      ((∀ rec ∈ ((MemRoute.GET st (some rid) ip now).2.presenceCache
          rid).getD [], now - rec.timestamp < PRESENCE_TIMEOUT) ∧
       ((st.presenceCache rid).getD [] ≠ [] →
        (MemRoute.GET st (some rid) ip now).2.presenceCache rid =
          some (((st.presenceCache rid).getD []).filter
            (fun p => now - p.timestamp < PRESENCE_TIMEOUT)))) := by
  intro st rid ip now hrl
  simp only [MemRoute.GET, hrl]
  rw [if_neg (show ¬(true = false) by decide)]
  by_cases hcond : ((st.presenceCache rid).getD []).length = 0 ∧
      (MemRoute.roomExists rid now
        { st with rateLimitMap := (MemRoute.checkRateLimit
            ("get:" ++ ip ++ ":" ++ rid) now st.rateLimitMap).2 }).1 = false
  · rw [if_pos hcond]
    have hpc := (roomExists_preserves rid now
      { st with rateLimitMap := (MemRoute.checkRateLimit
          ("get:" ++ ip ++ ":" ++ rid) now st.rateLimitMap).2 }).1
    have hnil : (st.presenceCache rid).getD [] = [] :=
      List.length_eq_zero.mp hcond.1
    constructor
    · intro rec hrec
      rw [hpc] at hrec
      simp only [MemRoute.ServerState.presenceCache] at hrec
      rw [hnil] at hrec
      simp at hrec
    · intro hne
      exact absurd hnil hne
  · rw [if_neg hcond]
    constructor
    · intro rec hrec
      simp only [MemRoute.fset, eq_self_iff_true, if_true,
        Option.getD_some] at hrec
      rw [List.mem_filter] at hrec
      have := hrec.2
      simp only [decide_eq_true_eq] at this
      exact this
    · intro _
      simp only [MemRoute.fset, eq_self_iff_true, if_true]

/-- C10 amended witness: a non-rate-limited GET over a cache holding one
stale and one fresh record rewrites the cache to just the fresh one. -/
theorem c10_get_purges_witness :
    (MemRoute.GET
      ⟨fun q => if q = "r1" then
          some [⟨"u1", "p1", 0, 0⟩, ⟨"u2", "p2", 120000, 120000⟩] else none,
        fun _ => none, [], []⟩
      (some "r1") "ip" 130000).2.presenceCache "r1" =
      some (([⟨"u1", "p1", 0, 0⟩, ⟨"u2", "p2", 120000, 120000⟩] :
          List MemRoute.MemEntry).filter
        (fun p => (130000 : Int) - p.timestamp < PRESENCE_TIMEOUT)) :=
  (c10_get_purges_unless_rate_limited
    ⟨fun q => if q = "r1" then
        some [⟨"u1", "p1", 0, 0⟩, ⟨"u2", "p2", 120000, 120000⟩] else none,
      fun _ => none, [], []⟩
    "r1" "ip" 130000 (by decide)).2 (by decide)

/-- C3 counterexample: a room the registry itself reports as unusable
(expired by its own validation route, and also inactive) still accepts a
brand-new participant announce: the in-memory POST returns success and
creates the presence record instead of failing with room-not-found. -/
theorem c3_counterexample :
    ValidateRoute.GET [⟨"r1", 0, false⟩] (some "r1") 1000 =
      ValidateRoute.ValidateResult.invalid ValidateRoute.Reason.expired ∧
    (MemRoute.POST (MemRoute.emptyServer [⟨"r1", 0, false⟩]) "r1" "u1" "p1"
      1000 "ip" 1000).1.status = 200 ∧
    (MemRoute.POST (MemRoute.emptyServer [⟨"r1", 0, false⟩]) "r1" "u1" "p1"
      1000 "ip" 1000).1.success = true ∧
    (MemRoute.POST (MemRoute.emptyServer [⟨"r1", 0, false⟩]) "r1" "u1" "p1"
      1000 "ip" 1000).2.presenceCache "r1" =
      some [⟨"u1", "p1", 1000, 1000⟩] := by
  decide

/-- C3 amended: the announce gate checks bare existence only. The Redis
route performs no registry check at all (every well-formed announce
succeeds with 200, whatever the registry holds); the in-memory variant
rejects a new participant with 404 exactly when the room row is absent
(empty caches assumed), and accepts any present row — its `expiresAt` and
`active` are never consulted. -/
theorem c3_room_gate_existence_only :
    (∀ (store : PresenceRoute.RedisStore) (d : PresenceReq) (fresh : String),
      (PresenceRoute.announce store d fresh).1.status = 200 ∧
      (PresenceRoute.announce store d fresh).1.success = true) ∧
    (∀ (st : MemRoute.ServerState) (rid uid pid ip : String) (ts now : Int),
      ((st.presenceCache rid).getD []).find?
        (fun p => p.userId = uid) = none →
      (MemRoute.checkRateLimit
        ("post:" ++ ip ++ ":" ++ rid ++ ":" ++ uid) now
        st.rateLimitMap).1 = true →
      st.roomExistenceCache rid = none →
      findRoom st.db rid = none →
      (MemRoute.POST st rid uid pid ts ip now).1.status = 404 ∧
      (MemRoute.POST st rid uid pid ts ip now).2.presenceCache =
        st.presenceCache) ∧
    (∀ (st : MemRoute.ServerState) (rid uid pid ip : String) (ts now : Int)
      (room : Room),
      ((st.presenceCache rid).getD []).find?
        (fun p => p.userId = uid) = none →
      (MemRoute.checkRateLimit
        ("post:" ++ ip ++ ":" ++ rid ++ ":" ++ uid) now
        st.rateLimitMap).1 = true →
      st.roomExistenceCache rid = none →
      findRoom st.db rid = some room →
      (MemRoute.POST st rid uid pid ts ip now).1.status = 200 ∧
      (MemRoute.POST st rid uid pid ts ip now).2.presenceCache rid =
        some ((st.presenceCache rid).getD [] ++ [⟨uid, pid, ts, now⟩])) := by
  refine ⟨fun store d fresh => ⟨rfl, rfl⟩, ?_, ?_⟩
  · intro st rid uid pid ip ts now hfind hrl hcache hdb
    simp only [MemRoute.POST, hrl]
    rw [if_neg (show ¬(true = false) by decide)]
    rw [hfind]
    simp only [MemRoute.roomExists, hcache, hdb]
    exact ⟨rfl, rfl⟩
  · intro st rid uid pid ip ts now room hfind hrl hcache hdb
    simp only [MemRoute.POST, hrl]
    rw [if_neg (show ¬(true = false) by decide)]
    rw [hfind]
    simp only [MemRoute.roomExists, hcache, hdb]
    refine ⟨rfl, ?_⟩
    simp [MemRoute.fset]

/-- C3 amended witness: both gate outcomes on concrete states — 404 for an
absent room, 200 with the record created for a present (but expired,
inactive) room. -/
theorem c3_room_gate_witness :
    (MemRoute.POST (MemRoute.emptyServer []) "rX" "u1" "p1" 5 "ip"
      5).1.status = 404 ∧
    (MemRoute.POST (MemRoute.emptyServer [⟨"rY", 0, false⟩]) "rY" "u1" "p1"
      5 "ip" 5).1.status = 200 :=
  ⟨(c3_room_gate_existence_only.2.1 (MemRoute.emptyServer []) "rX" "u1" "p1"
      "ip" 5 5 (by decide) (by decide) rfl (by decide)).1,
   (c3_room_gate_existence_only.2.2 (MemRoute.emptyServer [⟨"rY", 0, false⟩])
      "rY" "u1" "p1" "ip" 5 5 ⟨"rY", 0, false⟩ (by decide) (by decide) rfl
      (by decide)).1⟩

/-- Entries whose key a failed `any` scan never saw are untouched by the
overwrite map of `hset`. -/
theorem map_overwrite_of_no_key (h : PresenceRoute.RoomHash) (f : String)
    (v : PresenceRoute.StoredVal) (hno : ∀ e ∈ h, e.1 ≠ f) :
    h.map (fun e => if e.1 = f then (f, v) else e) = h := by
  induction h with
  | nil => rfl
  | cons a t ih =>
    have ha : a.1 ≠ f := hno a (List.mem_cons_self a t)
    simp only [List.map_cons, if_neg ha]
    rw [ih (fun e he => hno e (List.mem_cons_of_mem a he))]

/-- A hash with no entry under `f` filters to nothing under `f`. -/
theorem filter_key_of_no_key (h : PresenceRoute.RoomHash) (f : String)
    (hno : ∀ e ∈ h, e.1 ≠ f) :
    h.filter (fun e => e.1 = f) = [] := by
  rw [List.filter_eq_nil_iff]
  intro e he
  simp [hno e he]

/-- Setting a field twice with `hset` is the same as setting it once to
the second value. -/
theorem hset_hset_same (h : PresenceRoute.RoomHash) (f : String)
    (v w : PresenceRoute.StoredVal) :
    PresenceRoute.hset (PresenceRoute.hset h f v) f w =
      PresenceRoute.hset h f w := by
  by_cases hany : h.any (fun e => e.1 = f) = true
  · have hkeys : (h.map (fun e => if e.1 = f then (f, v) else e)).any
        (fun e => e.1 = f) = true := by
      rw [List.any_map]
      refine (List.any_eq_true).mpr ?_
      obtain ⟨e, he, hef⟩ := (List.any_eq_true).mp hany
      refine ⟨e, he, ?_⟩
      simp only [decide_eq_true_eq] at hef
      simp [Function.comp, hef]
    simp only [PresenceRoute.hset, hany, if_true, hkeys, List.map_map]
    refine List.map_congr_left ?_
    intro e _
    by_cases hef : e.1 = f
    · simp [Function.comp, hef]
    · simp [Function.comp, hef]
  · have hno : ∀ e ∈ h, e.1 ≠ f := by
      intro e he
      by_contra hc
      exact hany ((List.any_eq_true).mpr ⟨e, he, by simp [hc]⟩)
    have hany2 : (h ++ [(f, v)]).any (fun e => e.1 = f) = true :=
      (List.any_eq_true).mpr ⟨(f, v), by simp, by simp⟩
    have hv : PresenceRoute.hset h f v = h ++ [(f, v)] := by
      unfold PresenceRoute.hset
      rw [if_neg hany]
    have hw : PresenceRoute.hset h f w = h ++ [(f, w)] := by
      unfold PresenceRoute.hset
      rw [if_neg hany]
    rw [hv, hw]
    unfold PresenceRoute.hset
    rw [if_pos hany2, List.map_append, map_overwrite_of_no_key h f w hno]
    simp

/-- With unique field names, the overwrite map of `hset` leaves exactly
one entry under the written field. -/
theorem filter_map_overwrite (h : PresenceRoute.RoomHash) (f : String)
    (v : PresenceRoute.StoredVal)
    (hnd : (h.map Prod.fst).Nodup) (hany : h.any (fun e => e.1 = f) = true) :
    (h.map (fun e => if e.1 = f then (f, v) else e)).filter
      (fun e => e.1 = f) = [(f, v)] := by
  induction h with
  | nil => simp at hany
  | cons a t ih =>
    simp only [List.map_cons, List.nodup_cons] at hnd
    by_cases ha : a.1 = f
    · have hnot : ∀ e ∈ t, e.1 ≠ f := by
        intro e he hef
        exact hnd.1 (ha ▸ hef ▸ List.mem_map_of_mem Prod.fst he)
      simp only [List.map_cons, if_pos ha, List.filter_cons]
      rw [map_overwrite_of_no_key t f v hnot]
      simp [filter_key_of_no_key t f hnot]
    · have hany2 : t.any (fun e => e.1 = f) = true := by
        rcases (List.any_eq_true).mp hany with ⟨e, he, hef⟩
        rcases List.mem_cons.mp he with rfl | het
        · simp only [decide_eq_true_eq] at hef
          exact absurd hef ha
        · exact (List.any_eq_true).mpr ⟨e, het, hef⟩
      simp only [List.map_cons, if_neg ha, List.filter_cons]
      rw [if_neg (by simp [ha])]
      exact ih hnd.2 hany2

/-- With unique field names, a hash after `hset` filters to exactly the
single written entry under that field. -/
theorem filter_hset_self (h : PresenceRoute.RoomHash) (f : String)
    (v : PresenceRoute.StoredVal) (hnd : (h.map Prod.fst).Nodup) :
    (PresenceRoute.hset h f v).filter (fun e => e.1 = f) = [(f, v)] := by
  by_cases hany : h.any (fun e => e.1 = f) = true
  · simp only [PresenceRoute.hset, hany, if_true]
    exact filter_map_overwrite h f v hnd hany
  · have hno : ∀ e ∈ h, e.1 ≠ f := by
      intro e he
      by_contra hc
      exact hany ((List.any_eq_true).mpr ⟨e, he, by simp [hc]⟩)
    have hv : PresenceRoute.hset h f v = h ++ [(f, v)] := by
      unfold PresenceRoute.hset
      rw [if_neg hany]
    rw [hv, List.filter_append, filter_key_of_no_key h f hno]
    simp

/-- Restricting the GET listing to one user id is listing the hash
restricted to that field (the listing takes the user id from the field
name). -/
theorem listParticipants_filter_user (h : PresenceRoute.RoomHash)
    (p : String) (now : Int) :
    (PresenceRoute.listParticipants h now).filter
      (fun rec => rec.userId = p) =
      PresenceRoute.listParticipants (h.filter (fun e => e.1 = p)) now := by
  induction h with
  | nil => rfl
  | cons a t ih =>
    simp only [PresenceRoute.listParticipants, List.filterMap_cons,
      List.filter_cons] at *
    rcases hpa : PresenceRoute.parseParticipantData a.2 with _ | q
    · simp only [hpa]
      by_cases hak : a.1 = p
      · simp only [if_pos (by simp [hak] : decide (a.1 = p) = true),
          List.filterMap_cons, hpa]
        exact ih
      · simp only [if_neg (by simp [hak] : ¬ decide (a.1 = p) = true)]
        exact ih
    · simp only [hpa]
      by_cases hage : now - q.timestamp ≥ PRESENCE_TIMEOUT
      · simp only [if_pos hage]
        by_cases hak : a.1 = p
        · simp only [if_pos (by simp [hak] : decide (a.1 = p) = true),
            List.filterMap_cons, hpa, if_pos hage]
          exact ih
        · simp only [if_neg (by simp [hak] : ¬ decide (a.1 = p) = true)]
          exact ih
      · simp only [if_neg hage]
        by_cases hak : a.1 = p
        · simp only [if_pos (by simp [hak] : decide (a.1 = p) = true),
            List.filterMap_cons, hpa, if_neg hage, List.filter_cons]
          rw [ih]
        · simp only [List.filter_cons,
            if_neg (by simp [hak] :
              ¬ decide ((⟨a.1, q.peerId, q.timestamp⟩ :
                ParticipantData).userId = p) = true),
            if_neg (by simp [hak] : ¬ decide (a.1 = p) = true)]
          exact ih

/-- C2: announcing twice for the same participant replaces the record:
after `upsert(r, p, e1, t1)` then `upsert(r, p, e2, t2)` the room hash
holds exactly one entry for `p`, carrying endpoint `e2` and timestamp
`t2`, and a GET before that record expires returns exactly one record for
`p`, with endpoint `e2`. -/
theorem c2_upsert_replaces_never_duplicates :
    ∀ (store : PresenceRoute.RedisStore) (r p e1 e2 : String)
      (t1 t2 now : Int) (f1 f2 : String),
      p ≠ "" → t1 < t2 →
      ((store (PresenceRoute.getRoomKey r)).map Prod.fst).Nodup →
      now - t2 < PRESENCE_TIMEOUT →
      (((PresenceRoute.announce
          (PresenceRoute.announce store ⟨r, some p, e1, t1⟩ f1).2
          ⟨r, some p, e2, t2⟩ f2).2 (PresenceRoute.getRoomKey r)).filter
        (fun en => en.1 = p) =
        [(p, PresenceRoute.StoredVal.ok ⟨p, e2, t2⟩)]) ∧
      ((PresenceRoute.GET
          (PresenceRoute.announce
            (PresenceRoute.announce store ⟨r, some p, e1, t1⟩ f1).2
            ⟨r, some p, e2, t2⟩ f2).2 r now).participants.filter
        (fun rec => rec.userId = p) =
        [⟨p, e2, t2⟩]) := by
  intro store r p e1 e2 t1 t2 now f1 f2 hp ht hnd hlive
  have hstep : (PresenceRoute.announce
      (PresenceRoute.announce store ⟨r, some p, e1, t1⟩ f1).2
      ⟨r, some p, e2, t2⟩ f2).2 (PresenceRoute.getRoomKey r) =
      PresenceRoute.hset (store (PresenceRoute.getRoomKey r)) p
        (PresenceRoute.StoredVal.ok ⟨p, e2, t2⟩) := by
    simp only [PresenceRoute.announce, PresenceRoute.storeSet, if_neg hp,
      eq_self_iff_true, if_true]
    exact hset_hset_same _ p _ _
  constructor
  · rw [hstep]
    exact filter_hset_self _ p _ hnd
  · simp only [PresenceRoute.GET]
    rw [listParticipants_filter_user, hstep, filter_hset_self _ p _ hnd]
    simp only [PresenceRoute.listParticipants, List.filterMap_cons,
      PresenceRoute.parseParticipantData]
    rw [if_neg (show ¬ now - (⟨p, e2, t2⟩ :
      ParticipantData).timestamp ≥ PRESENCE_TIMEOUT by dsimp only; omega)]
    rfl

/-- C2 witness: the theorem applied to an empty store with concrete
participants and timestamps. -/
theorem c2_upsert_replaces_witness :
    ((PresenceRoute.GET
        (PresenceRoute.announce
          (PresenceRoute.announce (fun _ => []) ⟨"r1", some "u1", "e1", 1⟩
            "f1").2
          ⟨"r1", some "u1", "e2", 2⟩ "f2").2 "r1" 10).participants.filter
      (fun rec => rec.userId = "u1") =
      [⟨"u1", "e2", 2⟩]) :=
  (c2_upsert_replaces_never_duplicates (fun _ => []) "r1" "u1" "e1" "e2"
    1 2 10 "f1" "f2" (by decide) (by decide) (by decide) (by decide)).2

/-- Digit characters from `Nat.digitChar` round-trip through `charVal`. -/
theorem charVal_digitChar (d : Nat) (h : d < 10) :
    charVal (Nat.digitChar d) = d := by
  interval_cases d <;> decide

/-- Reading back what `Nat.toDigitsCore` wrote: the written digits append
`n` to the accumulator (base 10, enough fuel). -/
theorem decodeDigits_toDigitsCore :
    ∀ (fuel n : Nat), n < fuel → ∀ (acc : Nat) (ds : List Char),
      ∃ k : Nat, decodeDigits acc (Nat.toDigitsCore 10 fuel n ds) =
        decodeDigits (acc * 10 ^ k + n) ds := by
  intro fuel
  induction fuel with
  | zero => intro n h; omega
  | succ f ih =>
    intro n h acc ds
    by_cases h0 : n / 10 = 0
    · refine ⟨1, ?_⟩
      have hn : n < 10 := by omega
      have hstep : Nat.toDigitsCore 10 (f + 1) n ds =
          Nat.digitChar (n % 10) :: ds := by
        simp [Nat.toDigitsCore, h0]
      rw [hstep]
      show decodeDigits (acc * 10 + charVal (Nat.digitChar (n % 10))) ds = _
      rw [charVal_digitChar _ (Nat.mod_lt n (by norm_num))]
      have : acc * 10 + n % 10 = acc * 10 ^ 1 + n := by
        have := Nat.div_add_mod n 10
        omega
      rw [this]
    · have hnf : n / 10 < f := by
        have h1 : n / 10 < n := by omega
        omega
      obtain ⟨k, hk⟩ := ih (n / 10) hnf acc (Nat.digitChar (n % 10) :: ds)
      refine ⟨k + 1, ?_⟩
      have hstep : Nat.toDigitsCore 10 (f + 1) n ds =
          Nat.toDigitsCore 10 f (n / 10) (Nat.digitChar (n % 10) :: ds) := by
        simp [Nat.toDigitsCore, h0]
      rw [hstep, hk]
      show decodeDigits ((acc * 10 ^ k + n / 10) * 10 +
        charVal (Nat.digitChar (n % 10))) ds = _
      rw [charVal_digitChar _ (Nat.mod_lt n (by omega))]
      have harith : (acc * 10 ^ k + n / 10) * 10 + n % 10 =
          acc * 10 ^ (k + 1) + (10 * (n / 10) + n % 10) := by
        ring
      rw [harith, Nat.div_add_mod n 10]

/-- Decoding inverts `Nat.repr`, hence `Nat.repr` is injective. -/
theorem decodeDigits_repr (n : Nat) :
    decodeDigits 0 (Nat.toDigits 10 n) = n := by
  obtain ⟨k, hk⟩ := decodeDigits_toDigitsCore (n + 1) n (Nat.lt_succ_self n)
    0 []
  have ht : Nat.toDigits 10 n = Nat.toDigitsCore 10 (n + 1) n [] := rfl
  rw [ht, hk]
  show 0 * 10 ^ k + n = n
  simp

/-- Injectivity of `Nat.repr`: distinct numbers have distinct decimal
renderings. -/
theorem natRepr_injective {m n : Nat} (h : Nat.repr m = Nat.repr n) :
    m = n := by
  have hdata : Nat.toDigits 10 m = Nat.toDigits 10 n := by
    have := congrArg String.data h
    simpa [Nat.repr, List.asString] using this
  have := congrArg (decodeDigits 0) hdata
  rwa [decodeDigits_repr, decodeDigits_repr] at this

/-- Injectivity of `Int.repr` on nonnegative integers. -/
theorem intRepr_injective_nonneg {a b : Int} (ha : 0 ≤ a) (hb : 0 ≤ b)
    (h : Int.repr a = Int.repr b) : a = b := by
  obtain ⟨m, rfl⟩ := Int.eq_ofNat_of_zero_le ha
  obtain ⟨n, rfl⟩ := Int.eq_ofNat_of_zero_le hb
  have : Nat.repr m = Nat.repr n := h
  exact congrArg Int.ofNat (natRepr_injective this)

/-- String concatenation cancels on the left. -/
theorem str_append_left_cancel {k s1 s2 : String} (h : k ++ s1 = k ++ s2) :
    s1 = s2 := by
  have hd : (k ++ s1).data = (k ++ s2).data := by rw [h]
  rw [String.data_append, String.data_append] at hd
  rcases s1 with ⟨d1⟩
  rcases s2 with ⟨d2⟩
  have := List.append_cancel_left hd
  exact congrArg String.mk this

/-- Injectivity of `requestKey` in the timestamp (clock values are
nonnegative). -/
theorem requestKey_injective (key : String) {a b : Int} (ha : 0 ≤ a)
    (hb : 0 ≤ b) (h : MemRoute.requestKey key a = MemRoute.requestKey key b) :
    a = b := by
  unfold MemRoute.requestKey at h
  exact intRepr_injective_nonneg ha hb (str_append_left_cancel h)

/-- A list is a `isPrefixOf` itself followed by anything. -/
theorem isPrefixOf_append_self (l r : List Char) :
    l.isPrefixOf (l ++ r) = true := by
  induction l with
  | nil => simp
  | cons a t ih => simp [List.cons_append, List.isPrefixOf, ih]

/-- String append is associative. -/
theorem str_append_assoc (a b c : String) : a ++ b ++ c = a ++ (b ++ c) := by
  rcases a with ⟨da⟩
  rcases b with ⟨db⟩
  rcases c with ⟨dc⟩
  apply congrArg String.mk
  show da ++ db ++ dc = da ++ (db ++ dc)
  exact List.append_assoc da db dc

/-- Every recorded request key starts with its rate-limit key. -/
theorem jsStartsWith_requestKey (key : String) (t : Int) :
    MemRoute.jsStartsWith (MemRoute.requestKey key t) key = true := by
  unfold MemRoute.requestKey MemRoute.jsStartsWith
  rw [str_append_assoc, String.data_append]
  exact isPrefixOf_append_self key.data _

/-- The cleanup pass of `checkRateLimit` deletes nothing when every entry
is still inside the window. -/
theorem cleanup_eq_self (now : Int) (m : List (String × Int))
    (h : ∀ e ∈ m, now - e.2 ≤ RATE_LIMIT_WINDOW) :
    MemRoute.cleanupRateMap now m = m := by
  unfold MemRoute.cleanupRateMap
  rw [List.filter_eq_self]
  intro e he
  simpa using h e he

/-- Counting the requests of one key over a map of exactly that key,
all inside the window, counts them all. -/
theorem count_full (key : String) (now : Int) (ts : List Int)
    (h : ∀ t ∈ ts, now - t ≤ RATE_LIMIT_WINDOW) :
    MemRoute.countInWindow key now (ts.map (MemRoute.rateEntry key)) =
      ts.length := by
  unfold MemRoute.countInWindow
  have hf : (ts.map (MemRoute.rateEntry key)).filter
      (fun e => MemRoute.jsStartsWith e.1 key ∧
        now - e.2 ≤ RATE_LIMIT_WINDOW) = ts.map (MemRoute.rateEntry key) := by
    rw [List.filter_eq_self]
    intro e he
    obtain ⟨t, htm, rfl⟩ := List.mem_map.mp he
    simp [MemRoute.rateEntry, jsStartsWith_requestKey, h t htm]
  rw [hf, List.length_map]

/-- Calling `Map.set` with a key absent from the map appends a new entry. -/
theorem mapSet_append_of_fresh (m : List (String × Int)) (k : String)
    (v : Int) (h : ∀ e ∈ m, e.1 ≠ k) :
    MemRoute.mapSet m k v = m ++ [(k, v)] := by
  unfold MemRoute.mapSet
  rw [if_neg]
  intro hc
  obtain ⟨e, he, hek⟩ := List.any_eq_true.mp hc
  exact h e he (by simpa using hek)

/-- Running further requests of one key at fresh, increasing, in-window,
nonnegative times on a map holding the past requests of that key accepts each
one and records it, as long as the total stays at
`MAX_REQUESTS_PER_WINDOW`. -/
theorem runRate_accepts (key : String) :
    ∀ (todo done : List Int),
      (∀ t ∈ done, 0 ≤ t) → (∀ t ∈ todo, 0 ≤ t) →
      (∀ t ∈ done, ∀ u ∈ todo, t < u) →
      List.Pairwise (· < ·) todo →
      (∀ t ∈ done, ∀ u ∈ todo, u - t ≤ RATE_LIMIT_WINDOW) →
      (∀ t ∈ todo, ∀ u ∈ todo, u - t ≤ RATE_LIMIT_WINDOW) →
      done.length + todo.length ≤ MAX_REQUESTS_PER_WINDOW →
      MemRoute.runRateRequests key todo (done.map (MemRoute.rateEntry key)) =
        (List.replicate todo.length true,
         (done ++ todo).map (MemRoute.rateEntry key)) := by
  intro todo
  induction todo with
  | nil =>
    intro done _ _ _ _ _ _ _
    simp [MemRoute.runRateRequests]
  | cons u rest ih =>
    intro done hd ht hsep hsort hwin hwin2 hlen
    have humem : u ∈ u :: rest := List.mem_cons_self u rest
    have hclean : MemRoute.cleanupRateMap u
        (done.map (MemRoute.rateEntry key)) =
        done.map (MemRoute.rateEntry key) := by
      apply cleanup_eq_self
      intro e he
      obtain ⟨t, htm, rfl⟩ := List.mem_map.mp he
      exact hwin t htm u humem
    have hcount : MemRoute.countInWindow key u
        (done.map (MemRoute.rateEntry key)) = done.length :=
      count_full key u done (fun t htm => hwin t htm u humem)
    have hlt : done.length < MAX_REQUESTS_PER_WINDOW := by
      simp only [List.length_cons] at hlen
      omega
    have hfresh : ∀ e ∈ done.map (MemRoute.rateEntry key),
        e.1 ≠ MemRoute.requestKey key u := by
      intro e he hk
      obtain ⟨t, htm, rfl⟩ := List.mem_map.mp he
      have hteq : t = u := requestKey_injective key (hd t htm) (ht u humem) hk
      exact absurd hteq (ne_of_lt (hsep t htm u humem))
    have hstep : MemRoute.checkRateLimit key u
        (done.map (MemRoute.rateEntry key)) =
        (true, (done ++ [u]).map (MemRoute.rateEntry key)) := by
      simp only [MemRoute.checkRateLimit]
      rw [hclean, hcount,
        if_neg (by omega : ¬ MAX_REQUESTS_PER_WINDOW ≤ done.length)]
      rw [mapSet_append_of_fresh _ _ _ hfresh]
      simp [MemRoute.rateEntry]
    have hpw := List.pairwise_cons.mp hsort
    have hih := ih (done ++ [u])
      (by intro t htm
          rcases List.mem_append.mp htm with h1 | h2
          · exact hd t h1
          · simp only [List.mem_singleton] at h2
            rw [h2]
            exact ht u humem)
      (fun t htm => ht t (List.mem_cons_of_mem u htm))
      (by intro t htm r hr
          rcases List.mem_append.mp htm with h1 | h2
          · exact hsep t h1 r (List.mem_cons_of_mem u hr)
          · simp only [List.mem_singleton] at h2
            rw [h2]
            exact hpw.1 r hr)
      hpw.2
      (by intro t htm r hr
          rcases List.mem_append.mp htm with h1 | h2
          · exact hwin t h1 r (List.mem_cons_of_mem u hr)
          · simp only [List.mem_singleton] at h2
            rw [h2]
            exact hwin2 u humem r (List.mem_cons_of_mem u hr))
      (fun t htm r hr => hwin2 t (List.mem_cons_of_mem u htm) r
        (List.mem_cons_of_mem u hr))
      (by simp only [List.length_append, List.length_cons,
            List.length_nil] at hlen ⊢
          omega)
    simp only [MemRoute.runRateRequests]
    rw [hstep]
    dsimp only
    rw [hih]
    simp [List.replicate_succ, List.append_assoc]

/-- A request sequence splits: run the first part, then the second on the
map the first part left behind. -/
theorem runRate_append (key : String) (ts1 ts2 : List Int)
    (m : List (String × Int)) :
    MemRoute.runRateRequests key (ts1 ++ ts2) m =
      ((MemRoute.runRateRequests key ts1 m).1 ++
        (MemRoute.runRateRequests key ts2
          (MemRoute.runRateRequests key ts1 m).2).1,
       (MemRoute.runRateRequests key ts2
          (MemRoute.runRateRequests key ts1 m).2).2) := by
  induction ts1 generalizing m with
  | nil => simp [MemRoute.runRateRequests]
  | cons t ts ih =>
    simp only [List.cons_append, MemRoute.runRateRequests, List.append_eq]
    rw [ih]

/-- C5 counterexample: 121 requests of one key all carrying the same
millisecond timestamp — all inside one window — are all accepted: the
request map key `` `${key}:${now}` `` collides, every `Map.set` overwrites
the single entry, and the count never reaches the limit, so the 121st
request is not rejected. -/
theorem c5_counterexample :
    (MemRoute.runRateRequests "k" (List.replicate 121 0) []).1 =
      List.replicate 121 true := by
  decide

/-- C5 amended: provided the requests of a key arrive at pairwise distinct
(strictly increasing, nonnegative) millisecond timestamps inside one
window, the 120th request is accepted and the 121st is rejected; and a
rejected POST is answered with a distinct HTTP 429 outcome, never a
silent drop (presence data untouched). -/
theorem c5_rate_limit_amended :
    (∀ (key : String) (first : List Int) (tlast : Int),
      first.length = MAX_REQUESTS_PER_WINDOW →
      List.Pairwise (· < ·) (first ++ [tlast]) →
      (∀ t ∈ first ++ [tlast], 0 ≤ t) →
      (∀ t ∈ first, tlast - t ≤ RATE_LIMIT_WINDOW) →
      (∀ t ∈ first, ∀ u ∈ first, u - t ≤ RATE_LIMIT_WINDOW) →
      (MemRoute.runRateRequests key (first ++ [tlast]) []).1 =
        List.replicate MAX_REQUESTS_PER_WINDOW true ++ [false]) ∧
    (∀ (st : MemRoute.ServerState) (rid uid pid ip : String) (ts now : Int),
      (MemRoute.checkRateLimit
        ("post:" ++ ip ++ ":" ++ rid ++ ":" ++ uid) now
        st.rateLimitMap).1 = false →
      (MemRoute.POST st rid uid pid ts ip now).1.status = 429 ∧
      (MemRoute.POST st rid uid pid ts ip now).1.success = false ∧
      (MemRoute.POST st rid uid pid ts ip now).2.presenceCache =
        st.presenceCache) := by
  constructor
  · intro key first tlast hlen hsort hnn hwin hwin2
    have hpa := List.pairwise_append.mp hsort
    have hacc := runRate_accepts key first []
      (by intro t htm; simp at htm)
      (fun t htm => hnn t (List.mem_append_left _ htm))
      (by intro t htm; simp at htm)
      hpa.1
      (by intro t htm; simp at htm)
      hwin2
      (by simp [hlen])
    simp only [List.map_nil, List.nil_append] at hacc
    rw [runRate_append, hacc]
    have hclean2 : MemRoute.cleanupRateMap tlast
        (first.map (MemRoute.rateEntry key)) =
        first.map (MemRoute.rateEntry key) := by
      apply cleanup_eq_self
      intro e he
      obtain ⟨t, htm, rfl⟩ := List.mem_map.mp he
      exact hwin t htm
    have hcount2 : MemRoute.countInWindow key tlast
        (first.map (MemRoute.rateEntry key)) = first.length :=
      count_full key tlast first hwin
    have hrej : MemRoute.checkRateLimit key tlast
        (first.map (MemRoute.rateEntry key)) =
        (false, first.map (MemRoute.rateEntry key)) := by
      simp only [MemRoute.checkRateLimit]
      rw [hclean2, hcount2, if_pos (by omega : MAX_REQUESTS_PER_WINDOW ≤
        first.length)]
    have hrun1 : (MemRoute.runRateRequests key [tlast]
        (first.map (MemRoute.rateEntry key))).1 = [false] := by
      simp only [MemRoute.runRateRequests, hrej]
    rw [hrun1, hlen]
  · intro st rid uid pid ip ts now hrl
    simp only [MemRoute.POST, hrl]
    exact ⟨rfl, rfl, rfl⟩

/-- C5 amended witness: the two parts applied, respectively, to 121
requests at the concrete times 0,…,120 ms (120 accepted, the last
rejected) and to a concrete state whose map already holds 120 fresh
entries for the POST key (answered with 429). -/
theorem c5_rate_limit_amended_witness :
    (MemRoute.runRateRequests "k"
      (((List.range 120).map (fun i => (i : Int))) ++ [(120 : Int)]) []).1 =
      List.replicate MAX_REQUESTS_PER_WINDOW true ++ [false] ∧
    (MemRoute.POST
      ⟨fun _ => none, fun _ => none,
        (List.range 120).map
          (fun i => ("post:ip:r1:u1:" ++ Nat.repr i, (0 : Int))), []⟩
      "r1" "u1" "p1" 0 "ip" 0).1.status = 429 :=
  ⟨c5_rate_limit_amended.1 "k" ((List.range 120).map (fun i => (i : Int)))
    120 (by decide) (by decide) (by decide) (by decide) (by decide),
   (c5_rate_limit_amended.2
      ⟨fun _ => none, fun _ => none,
        (List.range 120).map
          (fun i => ("post:ip:r1:u1:" ++ Nat.repr i, (0 : Int))), []⟩
      "r1" "u1" "p1" "ip" 0 0 (by decide)).1⟩

end VoiceRoom
